import Mathlib

/-!
Verification of the pyex install pipeline (src/pyex.py).

The Python code is shallowly embedded as follows:

* A Python string is a Lean `String` (a structure over `List Char`); the
  handful of `pathlib` / `os.path` operations the program uses are modelled
  as executable functions on the character list (see `nameOf`, `dirOf`,
  `suffixOfName`, following CPython's `PurePosixPath.suffix` rule
  `0 < name.rfind('.') < len(name) - 1` and `posixpath.split` / `join`).
  Input paths are assumed to be in the normal form `Path()` keeps
  (no duplicate slashes, no trailing slash, no `.` components).
* The filesystem is a map `FS := String → Option FsFile`, a file being its
  text `content` plus its permission-bit word `mode` (`stat.S_IEXEC = 0o100`
  is bit 6).  `os.access(p, os.X_OK)` is modelled as the owner execute bit
  of `p` (the tool is single-user and operates on the user's own files).
  `shutil.copy` copies content and permission bits.
* Fallible code returns `Except` (an uncaught Python exception is
  `Except.error`), and `run_operations` returns a `RunResult`
  (`sys.exit` / fall-through return / uncaught exception) next to the
  final filesystem.
* `str.split("\n")` and `"\n".join` are modelled by the structurally
  recursive `splitChar` / `joinStrings` so that concrete runs reduce
  inside the kernel.
-/

/-- Split a character list at every occurrence of `c`, keeping empty
pieces: the model of Python `str.split` with an explicit separator. -/
def splitChar (c : Char) : List Char → List (List Char)
  | [] => [[]]
  | a :: as =>
    if a = c then [] :: splitChar c as
    else
      match splitChar c as with
      | [] => [[a]]
      | g :: gs => (a :: g) :: gs

/-- Python `str.split("\n")` on a Lean `String`. -/
def pySplitNl (s : String) : List String :=
  (splitChar '\n' s.data).map (fun l => ⟨l⟩)

/-- Python `sep.join(list)`. -/
def joinStrings (sep : String) : List String → String
  | [] => ""
  | [x] => x
  | x :: y :: xs => x ++ sep ++ joinStrings sep (y :: xs)

/-- The final path component (after the last `/`): `PurePosixPath.name`. -/
def nameOf (l : List Char) : List Char :=
  (l.reverse.takeWhile (fun ch => ch ≠ '/')).reverse

/-- Everything up to and including the last `/` (empty if there is none). -/
def dirOf (l : List Char) : List Char :=
  (l.reverse.dropWhile (fun ch => ch ≠ '/')).reverse

/-- CPython's suffix rule on a file name: the part from the last dot on,
provided that dot is neither the first nor the last character
(`0 < name.rfind('.') < len(name) - 1`). -/
def suffixOfName (n : List Char) : List Char :=
  let after := n.reverse.takeWhile (fun ch => ch ≠ '.')
  if after.length = n.length ∨ after.length = 0 ∨ after.length + 1 = n.length
  then []
  else '.' :: after.reverse

/-- The file name with its suffix removed (`PurePosixPath.stem`). -/
def stripSuffixOfName (n : List Char) : List Char :=
  n.take (n.length - (suffixOfName n).length)

/-- `Path(s).suffix`. -/
def pySuffix (s : String) : String := ⟨suffixOfName (nameOf s.data)⟩

/-- `Path(s).name`. -/
def pyName (s : String) : String := ⟨nameOf s.data⟩

/-- `Path(s).with_name(n)`. -/
def pyWithName (s n : String) : String := ⟨dirOf s.data ++ n.data⟩

/-- `Path(s).with_suffix("")`. -/
def pyWithSuffixEmpty (s : String) : String :=
  ⟨dirOf s.data ++ stripSuffixOfName (nameOf s.data)⟩

/-- Python `str.lstrip(".")`: drop every leading dot. -/
def lstripDots (s : String) : String := ⟨s.data.dropWhile (fun ch => ch = '.')⟩

/-- `os.path.split`: break at the last `/`; the head keeps no trailing
slashes unless it consists only of slashes. -/
def ospath_split (p : String) : String × String :=
  let head0 : String := ⟨dirOf p.data⟩
  let tail : String := ⟨nameOf p.data⟩
  if head0.data ≠ [] ∧ ¬ head0.data.all (fun ch => ch = '/') then
    (⟨(head0.data.reverse.dropWhile (fun ch => ch = '/')).reverse⟩, tail)
  else (head0, tail)

/-- `os.path.join` for one relative or absolute second component. -/
def ospath_join (a b : String) : String :=
  if b.data.headD ' ' = '/' then b
  else if a.data = [] ∨ a.data.reverse.headD ' ' = '/' then a ++ b
  else a ++ "/" ++ b

/-- The fixed installation directory (`SCRIPTS_DIR` in src/pyex.py). -/
def SCRIPTS_DIR : String := "/home/kyle/bin/"

/-- The suffix → interpreter-directive table (`SHEBANGS` in src/pyex.py),
in its source order. -/
def SHEBANGS : List (String × String) :=
  [(".py", "#!/bin/python3"), (".sh", "#!/bin/bash")]

/-- The directive text the table assigns to a suffix (`SHEBANGS[suffix]`,
meaningful once the suffix is known to be a key). -/
def shebangFor (suffix : String) : String := (SHEBANGS.lookup suffix).getD ""

/-- One file of the modelled filesystem: its text and its permission
bits. -/
structure FsFile where
  content : String
  mode : Nat
deriving DecidableEq

/-- The filesystem: a partial map from (normalised) path strings to
files. -/
def FS : Type := String → Option FsFile

/-- Create or overwrite a file. -/
def fsSet (fs : FS) (p : String) (f : FsFile) : FS :=
  fun q => if q = p then some f else fs q

/-- Delete a file. -/
def fsErase (fs : FS) (p : String) : FS :=
  fun q => if q = p then none else fs q

/-- Owner execute bit of a mode word (`stat.S_IEXEC = 0o100`). -/
def accessMode (m : Nat) : Bool := decide (m.testBit 6 = true)

/-- `os.access(p, os.X_OK)`: false for a missing file, otherwise the
owner execute bit. -/
def accessX (fs : FS) (p : String) : Bool :=
  match fs p with
  | none => false
  | some f => accessMode f.mode

/-- The record returned by the status inspector
(`FileStatus = namedtuple("FileStatus", "suffix shebang exec")`). -/
structure FileStatus where
  suffix : String
  shebang : Bool
  exec : Bool
deriving DecidableEq

/-- `get_file_text(suffix, script_path)`: raises `FileExtensionError`
when the path's suffix differs from the expected one, otherwise reads
the file. -/
def get_file_text (suffix : String) (script_path : String) (fs : FS) :
    Except String String :=
  if pySuffix script_path ≠ suffix then Except.error "FileExtensionError"
  else
    match fs script_path with
    | none => Except.error "FileNotFoundError"
    | some f => Except.ok f.content

/-- `get_file_status(script_path)`: the suffix comes from the path itself,
the `shebang` field tests membership of the first line in the table's
values, `exec` is `os.access(..., os.X_OK)`. -/
def get_file_status (script_path : String) (fs : FS) :
    Except String FileStatus :=
  let suffix := pySuffix script_path
  match get_file_text suffix script_path fs with
  | Except.error e => Except.error e
  | Except.ok text =>
      Except.ok
        ⟨suffix, (SHEBANGS.map Prod.snd).contains ((pySplitNl text).headI),
         accessX fs script_path⟩

/-- `add_shebang(file_text, suffix)`: `none` models the `AssertionError`
of the leading `assert suffix in list(SHEBANGS.keys())`; otherwise the
original split lines when the first line already is the directive, else
the directive, a blank line, then the original lines. -/
def add_shebang (file_text : String) (suffix : String) :
    Option (List String) :=
  if (SHEBANGS.map Prod.fst).contains suffix then
    let lines := pySplitNl file_text
    let shebang_line := shebangFor suffix
    if lines.headI = shebang_line then some lines
    else some (shebang_line :: "" :: lines)
  else none

/-- `make_executable(script_path)`: raises on a missing file, returns 1
and changes nothing when the file is already executable, otherwise
`chmod(st.st_mode | stat.S_IEXEC)` and returns 0.  (The modelled
filesystem never rejects `chmod`, so the code's chmod-failure branch,
which also returns 1, cannot fire.) -/
def make_executable (script_path : String) (fs : FS) :
    Except String (Nat × FS) :=
  match fs script_path with
  | none => Except.error "FileNotFoundError"
  | some st =>
    if accessMode st.mode then Except.ok (1, fs)
    else Except.ok (0, fsSet fs script_path ⟨st.content, st.mode ||| 64⟩)

/-- `remove_suffix(file_path)`: a no-op when the path has no suffix,
otherwise `path.rename(path.with_suffix(""))`, returning the new path. -/
def remove_suffix (file_path : String) (fs : FS) :
    Except String (String × FS) :=
  if pySuffix file_path = "" then Except.ok (file_path, fs)
  else
    match fs file_path with
    | none => Except.error "FileNotFoundError"
    | some f =>
      let p := pyWithSuffixEmpty file_path
      Except.ok (p, fsSet (fsErase fs file_path) p f)

/-- `copy_file(file_path, destination_path)`: the wrapped `shutil.copy`,
returning 1 on any failure (modelled: missing source) and 0 on
success. -/
def copy_file (file_path destination_path : String) (fs : FS) : Nat × FS :=
  match fs file_path with
  | none => (1, fs)
  | some f => (0, fsSet fs destination_path f)

/-- The hidden staging path: the original path with `"." + name` as its
final component. -/
def tempPath (fp : String) : String := pyWithName fp ("." ++ pyName fp)

/-- `make_temp_file(file_path)`: copy to the hidden sibling path,
returning the new `Path` on success and the int `1` on failure. -/
def make_temp_file (file_path : String) (fs : FS) : (String ⊕ Nat) × FS :=
  match copy_file file_path (tempPath file_path) fs with
  | (0, fs') => (Sum.inl (tempPath file_path), fs')
  | (_, fs') => (Sum.inr 1, fs')

/-- `build_final_path(path, custom_name)`: the path unchanged when the
custom name is absent (or empty, Python falsiness), otherwise
`os.path.join(os.path.split(path)[0], custom_name)`. -/
def build_final_path (path : String) (custom_name : Option String) : String :=
  if custom_name.getD "" = "" then path
  else ospath_join (ospath_split path).1 (custom_name.getD "")

/-- The comparison `temp_file_path == 0` in `run_operations`: a Python
`Path` never equals `0`, and the failure value is the int `1`. -/
def stagingGuard : String ⊕ Nat → Bool
  | Sum.inl _ => false
  | Sum.inr n => n == 0

/-- `str(temp_file_path)`: the path itself, or the decimal rendering of
the int failure value. -/
def strTemp : String ⊕ Nat → String
  | Sum.inl p => p
  | Sum.inr n => toString n

/-- How one `run_operations` call ends: a `sys.exit(code)`, a plain
return (the unsupported-suffix branch), or an uncaught exception. -/
inductive RunResult where
  | exited (code : Nat)
  | returned
  | raised (msg : String)
deriving DecidableEq

/-- The commit tail of `run_operations`: compute the destination name
(`temp_file_path.name.lstrip(".")`), resolve the final path, copy the
staged file there (`shutil.copy`, raising `SameFileError` on an
identical path and `FileNotFoundError` on a missing source), overwrite
the destination text when new lines were produced, delete the staged
file, and `sys.exit(0)`. -/
def commitPhase (tempStr2 : String) (custom_name : Option String)
    (new_lines : Option (List String)) (fs : FS) : RunResult × FS :=
  let new_file_name := lstripDots (pyName tempStr2)
  let combined := SCRIPTS_DIR ++ new_file_name
  let final_file_path := build_final_path combined custom_name
  if final_file_path = tempStr2 then (RunResult.raised "SameFileError", fs)
  else
    match fs tempStr2 with
    | none => (RunResult.raised "FileNotFoundError", fs)
    | some f =>
      let fs4 := fsSet fs final_file_path f
      let fs5 :=
        match new_lines with
        | some ls => fsSet fs4 final_file_path ⟨joinStrings "\n" ls, f.mode⟩
        | none => fs4
      (RunResult.exited 0, fsErase fs5 tempStr2)

/-- The shebang decision and suffix branch of `run_operations`: an
`AssertionError` from `add_shebang` is caught and answered with
`sys.exit(0)`; a recognised suffix leads to `remove_suffix` and the
commit, an unrecognised one to a plain return. -/
def shebangPhase (file_status : FileStatus) (file_text : String)
    (tempStr : String) (custom_name : Option String) (fs2 : FS) :
    RunResult × FS :=
  match (if file_status.shebang = false then
           match add_shebang file_text file_status.suffix with
           | none => none
           | some ls => some (some ls)
         else some none) with
  | none => (RunResult.exited 0, fs2)
  | some new_lines =>
    if (SHEBANGS.map Prod.fst).contains file_status.suffix then
      match remove_suffix tempStr fs2 with
      | Except.error e => (RunResult.raised e, fs2)
      | Except.ok (tempStr2, fs3) =>
        commitPhase tempStr2 custom_name new_lines fs3
    else (RunResult.returned, fs2)

/-- The part of `run_operations` after a successful status inspection:
read the text, make the staged file executable when needed, then the
shebang/commit phase. -/
def afterStatus (file_status : FileStatus) (tempStr : String)
    (custom_name : Option String) (fs1 : FS) : RunResult × FS :=
  match get_file_text file_status.suffix tempStr fs1 with
  | Except.error e => (RunResult.raised e, fs1)
  | Except.ok file_text =>
    match (if file_status.exec = false then make_executable tempStr fs1
           else Except.ok (1, fs1)) with
    | Except.error e => (RunResult.raised e, fs1)
    | Except.ok (_, fs2) =>
      shebangPhase file_status file_text tempStr custom_name fs2

/-- `run_operations(file_path, custom_name)`: stage, test the (dead)
`== 0` guard, inspect, and hand over to `afterStatus`. -/
def run_operations (file_path : String) (custom_name : Option String)
    (fs0 : FS) : RunResult × FS :=
  let r1 := make_temp_file file_path fs0
  if stagingGuard r1.1 then (RunResult.exited 1, r1.2)
  else
    let tempStr := strTemp r1.1
    match get_file_status tempStr r1.2 with
    | Except.error e => (RunResult.raised e, r1.2)
    | Except.ok file_status => afterStatus file_status tempStr custom_name r1.2

/-- The suffix-stripped, dot-stripped base name the pipeline installs a
source file under. -/
def strippedName (fp : String) : String :=
  lstripDots (pyName (pyWithSuffixEmpty (tempPath fp)))

/-- The destination path one `run_operations` call commits to. -/
def resolvedDest (fp : String) (c : Option String) : String :=
  build_final_path (SCRIPTS_DIR ++ strippedName fp) c

/-- Whether an inspection result is a `FileStatus` rather than an
exception. -/
def isOkStatus : Except String FileStatus → Bool
  | Except.ok _ => true
  | Except.error _ => false

deriving instance DecidableEq for Except

lemma fsSet_self (fs : FS) (p : String) (f : FsFile) : fsSet fs p f p = some f := by
  simp [fsSet]

lemma fsSet_ne (fs : FS) (p : String) (f : FsFile) (q : String) (h : q ≠ p) :
    fsSet fs p f q = fs q := by
  simp [fsSet, h]

lemma fsErase_ne (fs : FS) (p : String) (q : String) (h : q ≠ p) :
    fsErase fs p q = fs q := by
  simp [fsErase, h]

lemma takeWhile_append_of_all {α : Type} (p : α → Bool) (l₁ l₂ : List α)
    (h : ∀ a ∈ l₁, p a = true) :
    (l₁ ++ l₂).takeWhile p = l₁ ++ l₂.takeWhile p := by
  induction l₁ with
  | nil => simp
  | cons a as ih =>
      have ha : p a = true := h a (List.mem_cons_self a as)
      simp only [List.cons_append, List.takeWhile_cons, ha, if_true]
      rw [ih (fun x hx => h x (List.mem_cons_of_mem a hx))]

lemma dropWhile_append_of_all {α : Type} (p : α → Bool) (l₁ l₂ : List α)
    (h : ∀ a ∈ l₁, p a = true) :
    (l₁ ++ l₂).dropWhile p = l₂.dropWhile p := by
  induction l₁ with
  | nil => simp
  | cons a as ih =>
      have ha : p a = true := h a (List.mem_cons_self a as)
      simp only [List.cons_append, List.dropWhile_cons, ha, if_true]
      exact ih (fun x hx => h x (List.mem_cons_of_mem a hx))

lemma takeWhile_cons_of_false {α : Type} (p : α → Bool) (a : α) (l : List α)
    (h : p a = false) : (a :: l).takeWhile p = [] := by
  simp [List.takeWhile_cons, h]

lemma dropWhile_cons_of_false {α : Type} (p : α → Bool) (a : α) (l : List α)
    (h : p a = false) : (a :: l).dropWhile p = a :: l := by
  simp [List.dropWhile_cons, h]

lemma dropWhile_head_false {α : Type} (p : α → Bool) :
    ∀ (l : List α) (c : α) (cs : List α), l.dropWhile p = c :: cs → p c = false := by
  intro l
  induction l with
  | nil => intro c cs h; simp [List.dropWhile] at h
  | cons a as ih =>
      intro c cs h
      by_cases hp : p a = true
      · rw [List.dropWhile_cons, if_pos hp] at h
        exact ih c cs h
      · rw [List.dropWhile_cons, if_neg hp] at h
        cases h
        exact eq_false_of_ne_true hp

lemma dirOf_append_nameOf (l : List Char) : dirOf l ++ nameOf l = l := by
  unfold dirOf nameOf
  rw [← List.reverse_append, List.takeWhile_append_dropWhile, List.reverse_reverse]

lemma stripSuffix_append_suffix (n : List Char) :
    stripSuffixOfName n ++ suffixOfName n = n := by
  unfold stripSuffixOfName suffixOfName
  by_cases hc : (n.reverse.takeWhile (fun ch => ch ≠ '.')).length = n.length ∨
      (n.reverse.takeWhile (fun ch => ch ≠ '.')).length = 0 ∨
      (n.reverse.takeWhile (fun ch => ch ≠ '.')).length + 1 = n.length
  · simp only [hc, if_true, List.length_nil, Nat.sub_zero, List.take_length, List.append_nil]
  · simp only [hc, if_false]
    set after := n.reverse.takeWhile (fun ch => ch ≠ '.') with hafter
    have hdec : after ++ n.reverse.dropWhile (fun ch => ch ≠ '.') = n.reverse :=
      List.takeWhile_append_dropWhile _ _
    push_neg at hc
    obtain ⟨h1, h2, h3⟩ := hc
    rcases hrest : n.reverse.dropWhile (fun ch => ch ≠ '.') with _ | ⟨c, cs⟩
    · rw [hrest, List.append_nil] at hdec
      exact absurd (by rw [hdec]; exact (List.length_reverse n)) h1
    · have hcdot : c = '.' := by
        have := dropWhile_head_false (fun ch => ch ≠ '.') n.reverse c cs hrest
        simpa using this
      subst hcdot
      rw [hrest] at hdec
      have hn : n = cs.reverse ++ '.' :: after.reverse := by
        have := congrArg List.reverse hdec
        simpa [List.reverse_append] using this.symm
      have hlen : n.length = cs.length + 1 + after.length := by
        rw [hn]; simp [List.length_append]; omega
      have htake : n.length - ('.' :: after.reverse).length = cs.reverse.length := by
        simp [hlen]; omega
      rw [htake, hn, List.take_left]

lemma pyStrip_append_pySuffix (s : String) :
    pyWithSuffixEmpty s ++ pySuffix s = s := by
  unfold pyWithSuffixEmpty pySuffix
  have h1 : (⟨dirOf s.data ++ stripSuffixOfName (nameOf s.data)⟩ : String) ++
      (⟨suffixOfName (nameOf s.data)⟩ : String) =
      ⟨dirOf s.data ++ stripSuffixOfName (nameOf s.data) ++ suffixOfName (nameOf s.data)⟩ := rfl
  rw [h1, List.append_assoc, stripSuffix_append_suffix, dirOf_append_nameOf]

lemma nameOf_concat (d m : List Char) (hm : '/' ∉ m) :
    nameOf (d ++ '/' :: m) = m := by
  unfold nameOf
  have h1 : (d ++ '/' :: m).reverse = m.reverse ++ '/' :: d.reverse := by
    simp [List.reverse_append]
  have hall : ∀ a ∈ m.reverse, (fun ch => decide (ch ≠ '/')) a = true := by
    intro a ha
    simp only [decide_eq_true_eq, ne_eq]
    intro hc
    exact hm (hc ▸ List.mem_reverse.mp ha)
  rw [h1, takeWhile_append_of_all _ m.reverse ('/' :: d.reverse) hall,
      takeWhile_cons_of_false _ _ _ (by decide), List.append_nil, List.reverse_reverse]

lemma dirOf_concat (d m : List Char) (hm : '/' ∉ m) :
    dirOf (d ++ '/' :: m) = d ++ ['/'] := by
  unfold dirOf
  have h1 : (d ++ '/' :: m).reverse = m.reverse ++ '/' :: d.reverse := by
    simp [List.reverse_append]
  have hall : ∀ a ∈ m.reverse, (fun ch => decide (ch ≠ '/')) a = true := by
    intro a ha
    simp only [decide_eq_true_eq, ne_eq]
    intro hc
    exact hm (hc ▸ List.mem_reverse.mp ha)
  rw [h1, dropWhile_append_of_all _ m.reverse ('/' :: d.reverse) hall,
      dropWhile_cons_of_false _ _ _ (by decide)]
  simp

lemma tempPath_data (fp : String) :
    (tempPath fp).data = dirOf fp.data ++ '.' :: nameOf fp.data := rfl

lemma tempPath_ne (fp : String) : tempPath fp ≠ fp := by
  intro h
  have h1 := congrArg (fun s : String => s.data.length) h
  simp only [tempPath_data] at h1
  have h2 : fp.data.length = (dirOf fp.data).length + (nameOf fp.data).length := by
    conv_lhs => rw [← dirOf_append_nameOf fp.data]
    simp [List.length_append]
  simp only [List.length_append, List.length_cons] at h1
  omega

lemma keys_data_length (S : String) (h : S ∈ SHEBANGS.map Prod.fst) :
    S.data.length = 3 := by
  simp only [SHEBANGS, List.map_cons, List.map_nil, List.mem_cons,
    List.not_mem_nil, or_false] at h
  rcases h with h | h <;> subst h <;> decide

lemma keys_ne_empty (S : String) (h : S ∈ SHEBANGS.map Prod.fst) : S ≠ "" := by
  intro he
  have := keys_data_length S h
  rw [he] at this
  simp at this

lemma pyWithSuffixEmpty_tempPath_ne (fp : String)
    (h : pySuffix (tempPath fp) ∈ SHEBANGS.map Prod.fst) :
    pyWithSuffixEmpty (tempPath fp) ≠ fp := by
  intro heq
  have hsfx3 : (suffixOfName (nameOf (tempPath fp).data)).length = 3 :=
    keys_data_length _ h
  have hsplit := congrArg List.length
    (stripSuffix_append_suffix (nameOf (tempPath fp).data))
  rw [List.length_append, hsfx3] at hsplit
  have hren := congrArg (fun s : String => s.data.length) heq
  have hrdata : (pyWithSuffixEmpty (tempPath fp)).data =
      dirOf (tempPath fp).data ++ stripSuffixOfName (nameOf (tempPath fp).data) := rfl
  simp only [hrdata, List.length_append] at hren
  have htl : (tempPath fp).data.length =
      (dirOf (tempPath fp).data).length + (nameOf (tempPath fp).data).length := by
    conv_lhs => rw [← dirOf_append_nameOf (tempPath fp).data]
    simp [List.length_append]
  have htfp : (tempPath fp).data.length = fp.data.length + 1 := by
    have h1 := congrArg List.length (tempPath_data fp)
    have h2 : fp.data.length = (dirOf fp.data).length + (nameOf fp.data).length := by
      conv_lhs => rw [← dirOf_append_nameOf fp.data]
      simp [List.length_append]
    simp only [List.length_append, List.length_cons] at h1
    omega
  omega

lemma get_file_text_self (p : String) (fs : FS) :
    get_file_text (pySuffix p) p fs =
      match fs p with
      | none => Except.error "FileNotFoundError"
      | some f => Except.ok f.content := by
  unfold get_file_text
  rw [if_neg (by simp)]

lemma get_file_status_eq (p : String) (fs : FS) :
    get_file_status p fs =
      match fs p with
      | none => Except.error "FileNotFoundError"
      | some f =>
          Except.ok ⟨pySuffix p,
            (SHEBANGS.map Prod.snd).contains ((pySplitNl f.content).headI),
            accessX fs p⟩ := by
  simp only [get_file_status]
  rw [get_file_text_self]
  cases fs p <;> rfl

lemma make_temp_file_some (fp : String) (fs : FS) (f : FsFile)
    (h : fs fp = some f) :
    make_temp_file fp fs = (Sum.inl (tempPath fp), fsSet fs (tempPath fp) f) := by
  unfold make_temp_file copy_file
  rw [h]

lemma make_temp_file_none (fp : String) (fs : FS) (h : fs fp = none) :
    make_temp_file fp fs = (Sum.inr 1, fs) := by
  unfold make_temp_file copy_file
  rw [h]

lemma make_executable_preserves (p : String) (fs : FS) (n : Nat) (fs' : FS)
    (h : make_executable p fs = Except.ok (n, fs'))
    (q : String) (hq : q ≠ p) : fs' q = fs q := by
  cases hfs : fs p with
  | none =>
      rw [make_executable, hfs] at h
      exact absurd h (by simp)
  | some st =>
      rw [make_executable, hfs] at h
      simp only [] at h
      by_cases hacc : accessMode st.mode
      · rw [if_pos hacc] at h
        cases h
        rfl
      · rw [if_neg hacc] at h
        cases h
        exact fsSet_ne _ _ _ _ hq

lemma commitPhase_preserves (t2 : String) (c : Option String)
    (nl : Option (List String)) (fs : FS) (q : String)
    (h2 : q ≠ t2)
    (h3 : q ≠ build_final_path (SCRIPTS_DIR ++ lstripDots (pyName t2)) c) :
    (commitPhase t2 c nl fs).2 q = fs q := by
  simp only [commitPhase]
  by_cases hsame : build_final_path (SCRIPTS_DIR ++ lstripDots (pyName t2)) c = t2
  · rw [if_pos hsame]
  · rw [if_neg hsame]
    cases hfs : fs t2 with
    | none => rfl
    | some f =>
        cases nl with
        | none =>
            show (fsErase (fsSet fs _ f) t2) q = fs q
            rw [fsErase_ne _ _ _ h2, fsSet_ne _ _ _ _ h3]
        | some ls =>
            show (fsErase (fsSet (fsSet fs _ f) _ _) t2) q = fs q
            rw [fsErase_ne _ _ _ h2, fsSet_ne _ _ _ _ h3, fsSet_ne _ _ _ _ h3]

lemma shebangPhase_preserves (st : FileStatus) (txt : String)
    (tempStr : String) (c : Option String) (fs2 : FS) (q : String)
    (hsuffix : st.suffix = pySuffix tempStr)
    (h1 : q ≠ tempStr)
    (h2 : st.suffix ∈ SHEBANGS.map Prod.fst → q ≠ pyWithSuffixEmpty tempStr)
    (h3 : st.suffix ∈ SHEBANGS.map Prod.fst →
      q ≠ build_final_path
            (SCRIPTS_DIR ++ lstripDots (pyName (pyWithSuffixEmpty tempStr))) c) :
    (shebangPhase st txt tempStr c fs2).2 q = fs2 q := by
  unfold shebangPhase
  cases hdec : (if st.shebang = false then
                  match add_shebang txt st.suffix with
                  | none => none
                  | some ls => some (some ls)
                else some none) with
  | none => rfl
  | some nl =>
      dsimp only
      by_cases hk : (SHEBANGS.map Prod.fst).contains st.suffix
      · rw [if_pos hk]
        have hmem : st.suffix ∈ SHEBANGS.map Prod.fst := by simpa using hk
        have hne : pySuffix tempStr ≠ "" := hsuffix ▸ keys_ne_empty _ hmem
        rw [remove_suffix, if_neg hne]
        cases hfs : fs2 tempStr with
        | none => rfl
        | some f =>
            have hcp := commitPhase_preserves (pyWithSuffixEmpty tempStr) c nl
              (fsSet (fsErase fs2 tempStr) (pyWithSuffixEmpty tempStr) f) q
              (h2 hmem) (h3 hmem)
            rw [hcp, fsSet_ne _ _ _ _ (h2 hmem), fsErase_ne _ _ _ h1]
      · rw [if_neg hk]

lemma afterStatus_preserves (st : FileStatus) (tempStr : String)
    (c : Option String) (fs1 : FS) (q : String)
    (hsuffix : st.suffix = pySuffix tempStr)
    (h1 : q ≠ tempStr)
    (h2 : st.suffix ∈ SHEBANGS.map Prod.fst → q ≠ pyWithSuffixEmpty tempStr)
    (h3 : st.suffix ∈ SHEBANGS.map Prod.fst →
      q ≠ build_final_path
            (SCRIPTS_DIR ++ lstripDots (pyName (pyWithSuffixEmpty tempStr))) c) :
    (afterStatus st tempStr c fs1).2 q = fs1 q := by
  unfold afterStatus
  cases htxt : get_file_text st.suffix tempStr fs1 with
  | error e => rfl
  | ok txt =>
      dsimp only
      by_cases hex : st.exec = false
      · rw [if_pos hex]
        cases hme : make_executable tempStr fs1 with
        | error e => rfl
        | ok pair =>
            obtain ⟨n, fs2⟩ := pair
            dsimp only
            rw [shebangPhase_preserves st txt tempStr c fs2 q hsuffix h1 h2 h3]
            exact make_executable_preserves tempStr fs1 n fs2 hme q h1
      · rw [if_neg hex]
        exact shebangPhase_preserves st txt tempStr c fs1 q hsuffix h1 h2 h3

lemma strTemp_inr_one : strTemp (Sum.inr 1) = "1" := rfl

/-- Claim C5, amended: across a whole `run_operations` run, every mutation
targets the staged copy, its renamed form, or the resolved destination
path, so whenever the resolved destination differs from the original
path, the original source file is untouched — its filesystem entry
(content and permission bits) is the same before and after the run,
whatever the outcome. -/
theorem C5_original_file_untouched (fp : String) (c : Option String) (fs : FS)
    (hfinal : resolvedDest fp c ≠ fp) :
    (run_operations fp c fs).2 fp = fs fp := by
  unfold run_operations
  cases hfs : fs fp with
  | some f =>
      rw [make_temp_file_some fp fs f hfs]
      dsimp only [stagingGuard, strTemp]
      rw [if_neg (by simp)]
      rw [get_file_status_eq, fsSet_self]
      dsimp only
      rw [afterStatus_preserves _ _ _ _ _ rfl (Ne.symm (tempPath_ne fp))
            (fun hk => Ne.symm (pyWithSuffixEmpty_tempPath_ne fp hk))
            (fun _ => Ne.symm hfinal)]
      rw [fsSet_ne _ _ _ _ (Ne.symm (tempPath_ne fp))]
      exact hfs
  | none =>
      rw [make_temp_file_none fp fs hfs]
      dsimp only [stagingGuard, strTemp]
      rw [if_neg (by simp)]
      rw [(show (toString 1 : String) = "1" from rfl), get_file_status_eq]
      cases h1 : fs "1" with
      | none =>
          dsimp only
          exact hfs
      | some g =>
          dsimp only
          have hne : fp ≠ "1" := by
            intro he
            rw [he, h1] at hfs
            exact Option.noConfusion hfs
          have hnk : pySuffix "1" ∉ SHEBANGS.map Prod.fst := by decide
          rw [afterStatus_preserves _ _ _ _ _ rfl hne
            (fun hk => absurd hk hnk)
            (fun hk => absurd hk hnk)]
          exact hfs

lemma add_shebang_none (txt s : String) (h : s ∉ SHEBANGS.map Prod.fst) :
    add_shebang txt s = none := by
  unfold add_shebang
  rw [if_neg (by simpa using h)]

lemma shebangPhase_exit0 (st : FileStatus) (txt tempStr : String)
    (c : Option String) (fs2 : FS)
    (hshe : st.shebang = false) (hsfx : st.suffix ∉ SHEBANGS.map Prod.fst) :
    shebangPhase st txt tempStr c fs2 = (RunResult.exited 0, fs2) := by
  unfold shebangPhase
  rw [add_shebang_none txt st.suffix hsfx, hshe]
  rfl

lemma accessX_fsSet_self (fs : FS) (p : String) (f : FsFile) :
    accessX (fsSet fs p f) p = accessMode f.mode := by
  unfold accessX
  rw [fsSet_self]

lemma make_executable_of_not_exec (p : String) (fs : FS) (f : FsFile)
    (h : fs p = some f) (hm : accessMode f.mode = false) :
    make_executable p fs =
      Except.ok (0, fsSet fs p ⟨f.content, f.mode ||| 64⟩) := by
  unfold make_executable
  rw [h]
  dsimp only
  rw [hm, if_neg (by simp)]

/-- The filesystem of the C5 counterexample: the original script sits in
the install directory itself, has no directive and is not executable. -/
def c5fs : FS := fun q =>
  if q = "/home/kyle/bin/tool.py" then some ⟨"print(1)", 420⟩ else none

/-- Claim C5, counterexample: `run_operations` on
`/home/kyle/bin/tool.py` with custom name `tool.py` resolves the
destination to the original path itself and overwrites the original:
after the run its content carries the injected directive and its mode
gained the execute bit, so the original file is not byte-identical
before and after the run. -/
theorem C5_counterexample :
    (run_operations "/home/kyle/bin/tool.py" (some "tool.py") c5fs).1 =
        RunResult.exited 0 ∧
    c5fs "/home/kyle/bin/tool.py" = some ⟨"print(1)", 420⟩ ∧
    (run_operations "/home/kyle/bin/tool.py" (some "tool.py") c5fs).2
        "/home/kyle/bin/tool.py" =
      some ⟨"#!/bin/python3\n\nprint(1)", 484⟩ := by
  exact ⟨by decide, by decide, by decide⟩

/-- The filesystem of the C5 witness: an ordinary script outside the
install directory. -/
def c5wfs : FS := fun q =>
  if q = "/tmp/script.py" then some ⟨"print(1)", 420⟩ else none

/-- Witness for the amended claim C5 at a concrete input. -/
theorem C5_witness :
    (run_operations "/tmp/script.py" none c5wfs).2 "/tmp/script.py" =
      c5wfs "/tmp/script.py" :=
  C5_original_file_untouched "/tmp/script.py" none c5wfs (by decide)

/-- Claim C1 (code bug): on a staging failure `make_temp_file` returns
the int `1`, the guard in `run_operations` compares it with `0` and
therefore never fires, and the run ends in an uncaught
`FileNotFoundError` while inspecting the bogus path `"1"` instead of
reporting the staging failure and exiting with code 1. -/
theorem C1_staging_failure_not_aborted :
    (make_temp_file "/tmp/gone.py" (fun _ => none)).1 = Sum.inr 1 ∧
    stagingGuard (make_temp_file "/tmp/gone.py" (fun _ => none)).1 = false ∧
    (run_operations "/tmp/gone.py" none (fun _ => none)).1 =
      RunResult.raised "FileNotFoundError" ∧
    RunResult.raised "FileNotFoundError" ≠ RunResult.exited 1 := by
  exact ⟨by decide, by decide, by decide, by decide⟩

/-- The filesystem of the C9 counterexample: a file with an unsupported
suffix and no directive line. -/
def c9fs : FS := fun q =>
  if q = "/tmp/notes.txt" then some ⟨"some notes", 420⟩ else none

/-- Claim C9, counterexample: a run in which the directive injector's
precondition is violated (suffix `.txt` reaches `add_shebang`)
terminates with `sys.exit(0)`, not with process exit code 1 as the
claim states. -/
theorem C9_counterexample :
    (run_operations "/tmp/notes.txt" none c9fs).1 = RunResult.exited 0 ∧
    RunResult.exited 0 ≠ RunResult.exited 1 := by
  exact ⟨by decide, by decide⟩

/-- Claim C9, amended: when the injector is misused during a run — the
staged file's suffix is not a key of the table and its first line is no
directive, so `add_shebang`'s assertion fires — `run_operations`
catches the `AssertionError` and terminates with process exit code 0
(unlike missing input file, unsupported suffix at the command line, and
staging failure, which exit with code 1). -/
theorem C9_injector_misuse_exits_zero (fp : String) (c : Option String)
    (fs : FS) (f : FsFile) (hfs : fs fp = some f)
    (hsfx : pySuffix (tempPath fp) ∉ SHEBANGS.map Prod.fst)
    (hline : (SHEBANGS.map Prod.snd).contains ((pySplitNl f.content).headI) =
      false) :
    (run_operations fp c fs).1 = RunResult.exited 0 := by
  unfold run_operations
  rw [make_temp_file_some fp fs f hfs]
  dsimp only [stagingGuard, strTemp]
  rw [if_neg (by simp)]
  rw [get_file_status_eq, fsSet_self]
  dsimp only
  unfold afterStatus
  rw [get_file_text_self, fsSet_self]
  dsimp only
  rw [accessX_fsSet_self]
  by_cases hm : accessMode f.mode
  · rw [hm, if_neg (by simp)]
    dsimp only
    rw [shebangPhase_exit0 _ _ _ _ _ hline hsfx]
  · rw [eq_false_of_ne_true hm, if_pos rfl,
        make_executable_of_not_exec _ _ f (fsSet_self fs (tempPath fp) f)
          (eq_false_of_ne_true hm)]
    dsimp only
    rw [shebangPhase_exit0 _ _ _ _ _ hline hsfx]

/-- Witness for the amended claim C9 at a concrete input. -/
theorem C9_witness :
    (run_operations "/tmp/notes.txt" none c9fs).1 = RunResult.exited 0 :=
  C9_injector_misuse_exits_zero "/tmp/notes.txt" none c9fs
    ⟨"some notes", 420⟩ (by decide) (by decide) (by decide)

/-- Claim C2: for every text and every suffix that is a key of the
table, `add_shebang` returns the original split lines unchanged when
the first line already equals that suffix's directive, and otherwise
returns exactly the directive line, one blank line, then all original
lines in order with their content unchanged. -/
theorem C2_add_shebang_spec (file_text suffix : String)
    (h : suffix ∈ SHEBANGS.map Prod.fst) :
    add_shebang file_text suffix =
      some (if (pySplitNl file_text).headI = shebangFor suffix
            then pySplitNl file_text
            else shebangFor suffix :: "" :: pySplitNl file_text) := by
  simp only [add_shebang]
  rw [if_pos (by simpa using h), apply_ite some]

/-- Witness for claim C2 at concrete inputs: one file without the
directive, one already carrying it. -/
theorem C2_witness :
    add_shebang "print(1)" ".py" = some ["#!/bin/python3", "", "print(1)"] ∧
    add_shebang "#!/bin/python3\nx = 1" ".py" =
      some (pySplitNl "#!/bin/python3\nx = 1") := by
  have h1 := C2_add_shebang_spec "print(1)" ".py" (by decide)
  have h2 := C2_add_shebang_spec "#!/bin/python3\nx = 1" ".py" (by decide)
  rw [h1, h2]
  exact ⟨by decide, by decide⟩

/-- The filesystem of the C3 counterexample: a `.py` file whose first
line is the `.sh` directive. -/
def c3fs : FS := fun q =>
  if q = "/tmp/a.py" then some ⟨"#!/bin/bash\necho hi", 420⟩ else none

/-- Claim C3, counterexample: the inspector reports `shebang = true`
for a `.py` file whose first line is the bash directive — the first
line does not equal the directive assigned to the file's own suffix,
so the claimed iff fails. -/
theorem C3_counterexample :
    get_file_status "/tmp/a.py" c3fs = Except.ok ⟨".py", true, false⟩ ∧
    (pySplitNl "#!/bin/bash\necho hi").headI ≠ shebangFor ".py" := by
  exact ⟨by decide, by decide⟩

/-- Claim C3, amended: for every existing file, the inspector sets the
`shebang` field to true iff the first line equals the directive text of
ANY suffix of the table (membership in the table's values), not only
the directive of the file's own suffix; the suffix field is the path's
own suffix and `exec` is the execute bit. -/
theorem C3_shebang_field (p : String) (fs : FS) (f : FsFile)
    (h : fs p = some f) :
    get_file_status p fs =
      Except.ok ⟨pySuffix p,
        (SHEBANGS.map Prod.snd).contains ((pySplitNl f.content).headI),
        accessX fs p⟩ := by
  rw [get_file_status_eq, h]

/-- The filesystem of the C3 witness. -/
def c3wfs : FS := fun q =>
  if q = "/tmp/b.py" then some ⟨"print(2)", 484⟩ else none

/-- Witness for the amended claim C3 at a concrete input. -/
theorem C3_witness :
    get_file_status "/tmp/b.py" c3wfs = Except.ok ⟨".py", false, true⟩ := by
  have h := C3_shebang_field "/tmp/b.py" c3wfs ⟨"print(2)", 484⟩ (by decide)
  rw [h]
  decide

/-- The filesystem of the C4 counterexample: an existing file with the
unsupported suffix `.txt`. -/
def c4fs : FS := fun q =>
  if q = "/tmp/notes.txt" then some ⟨"hello", 420⟩ else none

/-- Claim C4, counterexample: `.txt` is not a key of the table, yet
`get_file_status` returns a `FileStatus` instead of failing. -/
theorem C4_counterexample :
    pySuffix "/tmp/notes.txt" ∉ SHEBANGS.map Prod.fst ∧
    get_file_status "/tmp/notes.txt" c4fs =
      Except.ok ⟨".txt", false, false⟩ := by
  exact ⟨by decide, by decide⟩

/-- Claim C4, amended: for every existing file, `get_file_status`
succeeds and returns a `FileStatus` even when the file's suffix is not
a key of the table: the suffix check inside `get_file_text` compares
the path's suffix with itself, so it can never fire from the
inspector; unsupported suffixes are rejected by `main` before the
pipeline, not here. -/
theorem C4_inspect_succeeds_on_unsupported (p : String) (fs : FS)
    (f : FsFile) (_hk : pySuffix p ∉ SHEBANGS.map Prod.fst)
    (h : fs p = some f) :
    isOkStatus (get_file_status p fs) = true := by
  rw [get_file_status_eq, h]
  rfl

/-- Witness for the amended claim C4 at a concrete input. -/
theorem C4_witness :
    pySuffix "/tmp/notes.txt" ∉ SHEBANGS.map Prod.fst ∧
    isOkStatus (get_file_status "/tmp/notes.txt" c4fs) = true :=
  ⟨by decide, C4_inspect_succeeds_on_unsupported "/tmp/notes.txt" c4fs
      ⟨"hello", 420⟩ (by decide) (by decide)⟩

/-- Claim C6: for a path carrying a recognised suffix, `remove_suffix`
renames the file to the suffix-stripped path and appending the suffix
back to the returned string yields the original path (round trip); for
a path with no suffix it returns the path unchanged and performs no
rename. -/
theorem C6_remove_suffix_round_trip (fp : String) (fs : FS) :
    (∀ f, fs fp = some f → pySuffix fp ∈ SHEBANGS.map Prod.fst →
        remove_suffix fp fs =
          Except.ok (pyWithSuffixEmpty fp,
            fsSet (fsErase fs fp) (pyWithSuffixEmpty fp) f) ∧
        pyWithSuffixEmpty fp ++ pySuffix fp = fp) ∧
    (pySuffix fp = "" → remove_suffix fp fs = Except.ok (fp, fs)) := by
  constructor
  · intro f hf hk
    refine ⟨?_, pyStrip_append_pySuffix fp⟩
    unfold remove_suffix
    rw [if_neg (keys_ne_empty _ hk), hf]
  · intro h0
    unfold remove_suffix
    rw [if_pos h0]

/-- The filesystem of the C6 witness. -/
def c6fs : FS := fun q => if q = "/tmp/a.py" then some ⟨"hi", 420⟩ else none

/-- Witness for claim C6 at concrete inputs: one recognised suffix, one
suffix-free path. -/
theorem C6_witness :
    (remove_suffix "/tmp/a.py" c6fs =
        Except.ok (pyWithSuffixEmpty "/tmp/a.py",
          fsSet (fsErase c6fs "/tmp/a.py") (pyWithSuffixEmpty "/tmp/a.py")
            ⟨"hi", 420⟩) ∧
      pyWithSuffixEmpty "/tmp/a.py" ++ pySuffix "/tmp/a.py" = "/tmp/a.py") ∧
    pyWithSuffixEmpty "/tmp/a.py" = "/tmp/a" ∧
    remove_suffix "/tmp/noext" c6fs = Except.ok ("/tmp/noext", c6fs) :=
  ⟨(C6_remove_suffix_round_trip "/tmp/a.py" c6fs).1 ⟨"hi", 420⟩ (by decide)
      (by decide),
   by decide,
   (C6_remove_suffix_round_trip "/tmp/noext" c6fs).2 (by decide)⟩

lemma accessMode_or64 (m : Nat) : accessMode (m ||| 64) = true := by
  unfold accessMode
  rw [Nat.testBit_lor]
  rw [(by decide : Nat.testBit 64 6 = true)]
  simp

/-- Claim C7: whenever a first `make_executable` call succeeds, a second
call on the resulting filesystem signals already-executable (return
value 1) and performs no change, so the permission bits after the
second call equal those after the first; and when the execute bit is
added, the new mode `mode ||| 0o100` keeps every bit other than bit 6
and sets bit 6. -/
theorem C7_make_executable_idempotent (p : String) (fs : FS) :
    (∀ n fs1, make_executable p fs = Except.ok (n, fs1) →
        make_executable p fs1 = Except.ok (1, fs1)) ∧
    (∀ f, fs p = some f → accessMode f.mode = false →
        make_executable p fs =
          Except.ok (0, fsSet fs p ⟨f.content, f.mode ||| 64⟩) ∧
        (∀ i, i ≠ 6 → (f.mode ||| 64).testBit i = f.mode.testBit i) ∧
        (f.mode ||| 64).testBit 6 = true) := by
  constructor
  · intro n fs1 h
    cases hfs : fs p with
    | none =>
        rw [make_executable, hfs] at h
        exact absurd h (by simp)
    | some st =>
        rw [make_executable, hfs] at h
        simp only [] at h
        by_cases hacc : accessMode st.mode
        · rw [if_pos hacc] at h
          cases h
          rw [make_executable, hfs]
          simp only []
          rw [if_pos hacc]
        · rw [if_neg hacc] at h
          cases h
          rw [make_executable, fsSet_self]
          simp only []
          rw [if_pos (accessMode_or64 st.mode)]
  · intro f hf hm
    refine ⟨make_executable_of_not_exec p fs f hf hm, ?_, ?_⟩
    · intro i hi
      rw [Nat.testBit_lor, (by norm_num : (64 : Nat) = 2 ^ 6),
          Nat.testBit_two_pow_of_ne (Ne.symm hi)]
      simp
    · rw [Nat.testBit_lor, (by decide : Nat.testBit 64 6 = true)]
      simp

/-- The filesystem of the C7 witness: a non-executable file with mode
0o644. -/
def c7fs : FS := fun q => if q = "/tmp/tool" then some ⟨"x", 420⟩ else none

/-- Witness for claim C7 at a concrete input: after the first call adds
the bit, the second call returns 1 and changes nothing, and the new
mode has bit 6 set. -/
theorem C7_witness :
    make_executable "/tmp/tool"
        (fsSet c7fs "/tmp/tool" ⟨"x", 420 ||| 64⟩) =
      Except.ok (1, fsSet c7fs "/tmp/tool" ⟨"x", 420 ||| 64⟩) ∧
    (420 ||| 64).testBit 6 = true := by
  have h := C7_make_executable_idempotent "/tmp/tool" c7fs
  refine ⟨h.1 0 (fsSet c7fs "/tmp/tool" ⟨"x", 420 ||| 64⟩) ?_, ?_⟩
  · exact (h.2 ⟨"x", 420⟩ (by decide) (by decide)).1
  · exact (h.2 ⟨"x", 420⟩ (by decide) (by decide)).2.2

lemma ospath_split_concat (dir s : String)
    (hs : '/' ∉ s.data) (hd : dir.data.reverse.headD '/' ≠ '/') :
    ospath_split (dir ++ "/" ++ s) = (dir, s) := by
  obtain ⟨ch, rest, hcr⟩ : ∃ ch rest, dir.data.reverse = ch :: rest := by
    cases hrev : dir.data.reverse with
    | nil => rw [hrev] at hd; simp at hd
    | cons ch rest => exact ⟨ch, rest, rfl⟩
  have hch : ch ≠ '/' := by rw [hcr] at hd; simpa using hd
  have hdata : (dir ++ "/" ++ s).data = dir.data ++ '/' :: s.data := by
    show (dir.data ++ ('/' :: List.nil)) ++ s.data = _
    simp
  have hmem : ch ∈ dir.data := by
    have : ch ∈ dir.data.reverse := by rw [hcr]; exact List.mem_cons_self ch rest
    exact List.mem_reverse.mp this
  simp only [ospath_split, hdata]
  rw [nameOf_concat _ _ hs, dirOf_concat _ _ hs]
  rw [if_pos ?side]
  case side =>
    constructor
    · simp
    · intro hall
      rw [List.all_eq_true] at hall
      exact hch (by simpa using hall ch (List.mem_append_left _ hmem))
  have hrev2 : (dir.data ++ ['/']).reverse = '/' :: dir.data.reverse := by
    simp
  rw [hrev2, List.dropWhile_cons]
  simp only [decide_True, if_true]
  rw [hcr, dropWhile_cons_of_false _ _ _ (by simpa using hch), ← hcr,
      List.reverse_reverse]

lemma ospath_join_std (dir c : String)
    (hd : dir.data.reverse.headD '/' ≠ '/')
    (hc : c.data.headD ' ' ≠ '/') :
    ospath_join dir c = dir ++ "/" ++ c := by
  unfold ospath_join
  rw [if_neg hc, if_neg ?side]
  case side =>
    rintro (h1 | h2)
    · rw [h1] at hd; simp at hd
    · obtain ⟨ch, rest, hcr⟩ : ∃ ch rest, dir.data.reverse = ch :: rest := by
        cases hrev : dir.data.reverse with
        | nil => rw [hrev] at hd; simp at hd
        | cons ch rest => exact ⟨ch, rest, rfl⟩
      rw [hcr] at hd h2
      simp only [List.headD_cons] at hd h2
      exact hd h2

/-- Claim C8: for an install-directory path `dir`, stripped name `s` and
caller-supplied (nonempty, relative) custom name `c`, the resolved
destination is `dir/c` — the custom name entirely replaces the stripped
name — and with no custom name the destination is the given `dir/s`
path itself. -/
theorem C8_build_final_path (dir s c : String)
    (hs : '/' ∉ s.data)
    (hd : dir.data.reverse.headD '/' ≠ '/')
    (hc1 : c ≠ "") (hc2 : c.data.headD ' ' ≠ '/') :
    build_final_path (dir ++ "/" ++ s) none = dir ++ "/" ++ s ∧
    build_final_path (dir ++ "/" ++ s) (some c) = dir ++ "/" ++ c := by
  constructor
  · rfl
  · unfold build_final_path
    rw [if_neg ?side]
    case side => simpa using hc1
    show ospath_join (ospath_split (dir ++ "/" ++ s)).1 ((some c).getD "") =
      dir ++ "/" ++ c
    rw [ospath_split_concat dir s hs hd]
    exact ospath_join_std dir c hd hc2

/-- Witness for claim C8 at the spec's Scenario D input: custom name
`mytool` for stripped name `tool` commits to `installDir/mytool`, not
`installDir/tool`. -/
theorem C8_witness :
    build_final_path "/home/kyle/bin/tool" (some "mytool") =
      "/home/kyle/bin/mytool" ∧
    build_final_path "/home/kyle/bin/tool" none = "/home/kyle/bin/tool" ∧
    ("/home/kyle/bin/mytool" : String) ≠ "/home/kyle/bin/tool" := by
  have e1 : ("/home/kyle/bin" ++ "/" ++ "tool" : String) =
      "/home/kyle/bin/tool" := by decide
  have e2 : ("/home/kyle/bin" ++ "/" ++ "mytool" : String) =
      "/home/kyle/bin/mytool" := by decide
  have h := C8_build_final_path "/home/kyle/bin" "tool" "mytool"
    (by decide) (by decide) (by decide) (by decide)
  refine ⟨?_, ?_, by decide⟩
  · rw [← e1, h.2, e2]
  · rw [← e1, h.1]

lemma suffixOfName_cons_dot (s : List Char) (h : suffixOfName s ≠ []) :
    suffixOfName ('.' :: s) = suffixOfName s := by
  by_cases hc : (s.reverse.takeWhile (fun ch => ch ≠ '.')).length = s.length ∨
      (s.reverse.takeWhile (fun ch => ch ≠ '.')).length = 0 ∨
      (s.reverse.takeWhile (fun ch => ch ≠ '.')).length + 1 = s.length
  · exact absurd (by simp only [suffixOfName]; rw [if_pos hc]) h
  · push_neg at hc
    obtain ⟨h1, h2, h3⟩ := hc
    set after := s.reverse.takeWhile (fun ch => ch ≠ '.') with hafter
    have hdec : after ++ s.reverse.dropWhile (fun ch => ch ≠ '.') = s.reverse :=
      List.takeWhile_append_dropWhile _ _
    have hrev : ('.' :: s).reverse = s.reverse ++ ['.'] := by simp
    have hafter' : (('.' :: s).reverse).takeWhile (fun ch => ch ≠ '.') = after := by
      rw [hrev]
      conv_lhs => rw [← hdec]
      rcases hrest : s.reverse.dropWhile (fun ch => ch ≠ '.') with _ | ⟨c, cs⟩
      · rw [hrest, List.append_nil] at hdec
        have hlen := congrArg List.length hdec
        simp only [List.length_reverse] at hlen
        exact absurd hlen h1
      · have hcdot : c = '.' := by
          have := dropWhile_head_false (fun ch => ch ≠ '.') s.reverse c cs hrest
          simpa using this
        subst hcdot
        have hallafter : ∀ a ∈ after, decide (a ≠ '.') = true := by
          intro a ha
          rw [hafter] at ha
          have hx := List.mem_takeWhile_imp ha
          exact hx
        rw [List.append_assoc, List.cons_append,
            takeWhile_append_of_all (fun ch => decide (ch ≠ '.')) after
              ('.' :: (cs ++ ['.'])) hallafter,
            takeWhile_cons_of_false (fun ch => decide (ch ≠ '.')) '.'
              (cs ++ ['.']) (by decide), List.append_nil]
    have hlen_le : after.length ≤ s.length := by
      have := congrArg List.length hdec
      simp only [List.length_append, List.length_reverse] at this
      omega
    simp only [suffixOfName]
    rw [hafter']
    rw [if_neg (by
      push_neg
      refine ⟨?_, h2, ?_⟩ <;> simp only [List.length_cons] <;> omega), if_neg (by
      push_neg
      exact ⟨h1, h2, h3⟩)]

lemma stripSuffixOfName_cons_dot (s : List Char) (h : suffixOfName s ≠ []) :
    stripSuffixOfName ('.' :: s) = '.' :: stripSuffixOfName s := by
  unfold stripSuffixOfName
  rw [suffixOfName_cons_dot s h]
  have hle : (suffixOfName s).length ≤ s.length := by
    have := congrArg List.length (stripSuffix_append_suffix s)
    simp only [List.length_append] at this
    omega
  have hlen : ('.' :: s).length - (suffixOfName s).length
      = (s.length - (suffixOfName s).length) + 1 := by
    simp only [List.length_cons]
    omega
  rw [hlen, List.take_succ_cons]

/-- Claim C10: the installed command name is computed by stripping ALL
leading dots from the staged file's suffix-stripped name — for a source
file named `s` with a recognised suffix, the pipeline's base name is
`lstrip(".")` of the suffix-stripped original name, so an original name
beginning with dots loses every one of them; the default destination is
that name under the install directory. -/
theorem C10_installed_name_strips_leading_dots (dir s : String)
    (hs : '/' ∉ s.data)
    (hsfx : pySuffix (dir ++ "/" ++ s) ∈ SHEBANGS.map Prod.fst) :
    strippedName (dir ++ "/" ++ s) = lstripDots ⟨stripSuffixOfName s.data⟩ ∧
    resolvedDest (dir ++ "/" ++ s) none =
      SCRIPTS_DIR ++ lstripDots ⟨stripSuffixOfName s.data⟩ := by
  have hdata : (dir ++ "/" ++ s).data = dir.data ++ '/' :: s.data := by
    show (dir.data ++ ('/' :: List.nil)) ++ s.data = _
    simp
  have hname : nameOf (dir ++ "/" ++ s).data = s.data := by
    rw [hdata]
    exact nameOf_concat _ _ hs
  have hsfx_ne : suffixOfName s.data ≠ [] := by
    intro hz
    apply keys_ne_empty _ hsfx
    show (⟨suffixOfName (nameOf (dir ++ "/" ++ s).data)⟩ : String) = ""
    rw [hname, hz]
  have hdots : '/' ∉ ('.' :: s.data) := by
    intro hm
    rcases List.mem_cons.mp hm with h | h
    · exact absurd h (by decide)
    · exact hs h
  have htemp : (tempPath (dir ++ "/" ++ s)).data
      = dir.data ++ '/' :: '.' :: s.data := by
    rw [tempPath_data, hdata, dirOf_concat _ _ hs]
    have : nameOf (dir.data ++ '/' :: s.data) = s.data := nameOf_concat _ _ hs
    rw [this]
    simp
  have hnametemp : nameOf (tempPath (dir ++ "/" ++ s)).data = '.' :: s.data := by
    rw [htemp]
    exact nameOf_concat _ _ hdots
  have hdirtemp : dirOf (tempPath (dir ++ "/" ++ s)).data
      = dir.data ++ ['/'] := by
    rw [htemp]
    exact dirOf_concat _ _ hdots
  have hrenamed : (pyWithSuffixEmpty (tempPath (dir ++ "/" ++ s))).data
      = dir.data ++ '/' :: '.' :: stripSuffixOfName s.data := by
    show dirOf (tempPath (dir ++ "/" ++ s)).data ++
        stripSuffixOfName (nameOf (tempPath (dir ++ "/" ++ s)).data) = _
    rw [hdirtemp, hnametemp, stripSuffixOfName_cons_dot s.data hsfx_ne]
    simp
  have hstrip_sub : '/' ∉ ('.' :: stripSuffixOfName s.data) := by
    intro hm
    rcases List.mem_cons.mp hm with h | h
    · exact absurd h (by decide)
    · exact hs (List.take_subset _ _ h)
  have hnr : nameOf (pyWithSuffixEmpty (tempPath (dir ++ "/" ++ s))).data
      = '.' :: stripSuffixOfName s.data := by
    rw [hrenamed]
    exact nameOf_concat _ _ hstrip_sub
  have h1 : strippedName (dir ++ "/" ++ s) =
      lstripDots ⟨'.' :: stripSuffixOfName s.data⟩ := by
    show lstripDots ⟨nameOf (pyWithSuffixEmpty (tempPath (dir ++ "/" ++ s))).data⟩
      = lstripDots ⟨'.' :: stripSuffixOfName s.data⟩
    rw [hnr]
  have h2 : lstripDots ⟨'.' :: stripSuffixOfName s.data⟩ =
      lstripDots ⟨stripSuffixOfName s.data⟩ := by
    show (⟨List.dropWhile (fun ch => decide (ch = '.'))
        ('.' :: stripSuffixOfName s.data)⟩ : String) = _
    rw [List.dropWhile_cons]
    simp [lstripDots]
  refine ⟨h1.trans h2, ?_⟩
  have hb : resolvedDest (dir ++ "/" ++ s) none =
      SCRIPTS_DIR ++ strippedName (dir ++ "/" ++ s) := rfl
  rw [hb, h1.trans h2]

/-- Witness for claim C10 at a concrete input: the original name
`.foo.py` installs as `foo`, not `.foo`. -/
theorem C10_witness :
    strippedName "/tmp/.foo.py" = "foo" ∧ ("foo" : String) ≠ ".foo" := by
  have e : ("/tmp" ++ "/" ++ ".foo.py" : String) = "/tmp/.foo.py" := by decide
  have h := (C10_installed_name_strips_leading_dots "/tmp" ".foo.py"
    (by decide) (by decide)).1
  refine ⟨?_, by decide⟩
  rw [← e, h]
  decide
